import Mathlib

/-!
Verification development for the `subflow` Go package: a subprocess
lifecycle controller with a typed message protocol.

The Go source is shallowly embedded:
* command specs (`command.go`) become a record with optional capability
  fields mirroring the `CommandArgs` / `CommandEnv` interface assertions;
* Go errors and `errors.Join` become lists of a `GoErr` inductive
  (the join of a list of errors is modelled as the ordered list of its
  non-nil components);
* the controller's atomic state machine (`started` CAS, `killOnce`,
  `close(wait)`) becomes a step function over an explicit trace of
  `Start` / `CloseTimeout` calls — any concurrent execution of those
  calls linearizes to such a trace because every shared update is an
  atomic primitive;
* `runCmd`, `pipeInput` and `kindWriter.Write` become pure functions of
  the external events they consume (process outcome, queue items, write
  results, cancellation observations);
* the JSON wire format of messages becomes a small JSON value AST, with
  the encoder and the validating decoder translated field by field from
  the `MarshalJSON` / `UnmarshalJSON` implementations.
-/

namespace Subflow

/-! Section: Go errors and errors.Join. -/

/-- A Go error value, at the granularity the package distinguishes:
`ErrExitCode` (defined in `command.go`), and any other runtime error
(pipe-close failures, non-`ExitError` run failures), carried with an
identifying description. -/
inductive GoErr where
  | errExitCode (code : Int)
  | ioErr (descr : String)
  deriving DecidableEq, Repr

/-- Accumulated error: `errors.Join` of a sequence of non-nil errors is
modelled as the ordered list of those errors; the nil error is `[]`. -/
abbrev ErrAcc := List GoErr

/-- Join `errors.Join(acc..., e)` for an optional (possibly nil) error `e`. -/
def joinOpt (acc : ErrAcc) (e : Option GoErr) : ErrAcc :=
  acc ++ e.toList

/-- Whether an accumulated error contains an `ErrExitCode`. -/
def containsExitCode (acc : ErrAcc) : Bool :=
  acc.any fun e => match e with
    | .errExitCode _ => true
    | .ioErr _ => false

/-! Section: CommandSpec (command.go).

A value satisfying the `Command` interface, with the optional
`CommandArgs` / `CommandEnv` capabilities: `argsCap` is `some l` exactly
when the dynamic type additionally implements `Args() []string`, and
`envCap` is `some l` exactly when it implements `Environment() []string`.
The concrete `*basicCommandArgs` type implements all three methods, so
every spec built by the package constructors carries both capabilities. -/

structure CommandValue where
  command : String
  argsCap : Option (List String)
  envCap : Option (List String)
  deriving DecidableEq, Repr

/-- Constructor `NewCommand`. -/
def NewCommand (command : String) : CommandValue :=
  { command := command, argsCap := some [], envCap := some [] }

/-- Constructor `NewCommandArgs`. -/
def NewCommandArgs (command : String) (args : List String) : CommandValue :=
  { command := command, argsCap := some args, envCap := some [] }

/-- Constructor `NewCommandEnv`. -/
def NewCommandEnv (command : String) (env : List String) : CommandValue :=
  { command := command, argsCap := some [], envCap := some env }

/-- Constructor `NewCommandArgsEnv`. -/
def NewCommandArgsEnv (command : String) (args env : List String) :
    CommandValue :=
  { command := command, argsCap := some args, envCap := some env }

/-- Reading `spec.Args()` as seen through the `CommandArgs` capability: empty
when the capability is absent. -/
def CommandValue.argsOf (c : CommandValue) : List String :=
  c.argsCap.getD []

/-- Reading `spec.Environment()` as seen through the `CommandEnv` capability:
empty when the capability is absent. -/
def CommandValue.envOf (c : CommandValue) : List String :=
  c.envCap.getD []

/-- Function `commandCollect`, translated statement by statement from the source.
The named return values `args`, `env` start at the zero value `nil`;
the first type assertion sets `args = cmd.Args()`; the second sets
`args = cmd.Environment()` (the source assigns the environment into the
`args` slot and never writes `env`). -/
def commandCollect (cmd : CommandValue) :
    String × List String × List String :=
  let command := cmd.command
  let args : List String := []
  let env : List String := []
  let args := match cmd.argsCap with
    | some a => a
    | none => args
  let args := match cmd.envCap with
    | some e => e
    | none => args
  (command, args, env)

/-- Function `WithEnv`, translated from the source: collects the triple and
builds a `*basicCommandArgs` (which carries all capabilities) with
`env := append(subEnv, env...)`. -/
def WithEnv (cmd : CommandValue) (env : List String) : CommandValue :=
  let c := commandCollect cmd
  { command := c.1, argsCap := some c.2.1, envCap := some (c.2.2 ++ env) }

/-- The collection behaviour the spec describes for `commandCollect`:
each capability read independently, absent capabilities yielding the
empty sequence. Stated from the spec's words, for comparison with the
source-translated `commandCollect`. -/
def commandCollectSpec (cmd : CommandValue) :
    String × List String × List String :=
  (cmd.command, cmd.argsOf, cmd.envOf)

/-! Section: controller messages.

The controller publishes values of the `Message` interface; for the
lifecycle claims only the variant and its payload matter, so messages
are viewed here by kind (the wire format, with timestamps, is modelled
separately below). -/

/-- View of a published `Message` by variant and payload. -/
inductive MsgKind where
  | start
  | exitCode (code : Int)
  | stdout (data : List Nat)
  | stderr (data : List Nat)
  | stdinEcho (data : List Nat)
  deriving DecidableEq, Repr

/-- An effect on the output stream `cmd.out`: a `Push` of one message,
or a `Close` carrying optional final messages. -/
inductive OutEvent where
  | push (m : MsgKind)
  | closeWith (m : MsgKind)
  | closeEmpty
  deriving DecidableEq, Repr

/-! Section: the controller state machine (command.go).

`Start` and `CloseTimeout` coordinate through three atomic primitives:
the `started` atomic boolean (compare-and-swap), the `killOnce`
`sync.Once`, and the `wait` channel. A concurrent execution of any
number of `Start`/`CloseTimeout` calls linearizes to a sequence of call
steps; each step below performs the updates of one call. (`sync.Once`
guarantees at most one `Do` body ever runs, so the at-most-once
counters proved from this model hold in any interleaving.) -/

/-- External observations of one `CloseTimeout(timeout)` call: the
duration argument and whether `time.After(timeout)` fired before
`cmd.Done()` in the kill branch's `select`. -/
structure CloseCall where
  timeout : Nat
  timedOut : Bool
  deriving DecidableEq, Repr

/-- One linearized controller call. -/
inductive Op where
  | startCall
  | closeCall (c : CloseCall)
  deriving DecidableEq, Repr

/-- Whether an op is a `CloseTimeout` call. -/
def Op.isClose : Op → Bool
  | .startCall => false
  | .closeCall _ => true

/-- Shared controller state touched by `Start`/`CloseTimeout`, plus
counters of the effects whose multiplicity the claims are about. -/
structure MachState where
  started : Bool
  killOnceDone : Bool
  cancelled : Bool
  spawns : Nat
  neverStartedCleanups : Nat
  killBranchRuns : Nat
  killSignals : Nat
  deriving DecidableEq, Repr

/-- Initial state built by `New`: nothing started, nothing cancelled. -/
def initState : MachState :=
  { started := false, killOnceDone := false, cancelled := false,
    spawns := 0, neverStartedCleanups := 0, killBranchRuns := 0,
    killSignals := 0 }

/-- One `Start()` call: `started.CompareAndSwap(false, true)` and, on
success, `go cmd.runCmd()`. -/
def stepStart (s : MachState) : MachState :=
  if s.started then s
  else { s with started := true, spawns := s.spawns + 1 }

/-- One `CloseTimeout(c.timeout)` call: cancel, then the CAS; on CAS
success run `cleanupCmd(false)` and spend `killOnce` on a no-op; on CAS
failure run `killOnce.Do` with the kill/timeout body, which — when it is
the first `Do` — waits for natural exit up to the timeout and sends
`os.Kill` if the timeout fires first (`timeout == 0` waits on
`cmd.Done()` outside the branch without ever killing). -/
def stepClose (s : MachState) (c : CloseCall) : MachState :=
  let s := { s with cancelled := true }
  if s.started then
    if s.killOnceDone then s
    else
      let s := { s with killOnceDone := true,
                        killBranchRuns := s.killBranchRuns + 1 }
      if 0 < c.timeout && c.timedOut then
        { s with killSignals := s.killSignals + 1 }
      else s
  else
    { s with started := true,
             neverStartedCleanups := s.neverStartedCleanups + 1,
             killOnceDone := true }

/-- One linearized call step. -/
def stepOp (s : MachState) : Op → MachState
  | .startCall => stepStart s
  | .closeCall c => stepClose s c

/-- The state after a linearized sequence of calls. -/
def runMach (ops : List Op) : MachState :=
  ops.foldl stepOp initState

/-! Section: cleanupCmd and runCmd (command.go). -/

/-- Observable result of one `cleanupCmd(started)` invocation. -/
structure CleanupResult where
  waitErr : ErrAcc
  outClosedEmpty : Bool
  waitCloses : Nat
  deriving DecidableEq, Repr

/-- Function `cleanupCmd`, translated from the source: when not started,
close the output stream with no final message; join the stdin pipe's
close error (an I/O error or nil — `stdin.Close` never yields an
`ErrExitCode`) into `waitErr`; the deferred `close(cmd.wait)` runs last,
after the join, and runs exactly once per invocation. -/
def cleanupCmd (started : Bool) (waitErr : ErrAcc)
    (stdinCloseErr : Option String) : CleanupResult :=
  { waitErr := joinOpt waitErr (stdinCloseErr.map .ioErr),
    outClosedEmpty := !started,
    waitCloses := 1 }

/-- Outcome of `cmd.cmd.Run()`: nil; an `*exec.ExitError` carrying
`ExitCode()` (non-zero for a non-zero exit status, `-1` when the process
terminated without an exit status); or any other error. -/
inductive RunResult where
  | success
  | exitErr (code : Int)
  | otherErr (descr : String)
  deriving DecidableEq, Repr

/-- Observable result of one `runCmd` invocation. -/
structure RunCmdResult where
  outEvents : List OutEvent
  exitCode : Int
  waitErr : ErrAcc
  waitCloses : Nat
  deriving DecidableEq, Repr

/-- Function `runCmd` with its `exitCode` helper, translated from the
source in execution order: push the `Start` message; run the process;
on error set the code to `-1`, then overwrite it with `ExitCode()` if
the error is an `*exec.ExitError`, otherwise join the raw error into
`waitErr`; then the deferred `sendCode` joins `ErrExitCode(code)` when
the code is non-zero and closes the stream with the `Exit` message; then
the deferred `cleanupCmd(true)` runs. -/
def runCmd (res : RunResult) (stdinCloseErr : Option String) :
    RunCmdResult :=
  let code : Int := 0
  let waitErr : ErrAcc := []
  let (code, waitErr) := match res with
    | .success => (code, waitErr)
    | .exitErr c => (c, waitErr)
    | .otherErr d => (-1, joinOpt waitErr (some (.ioErr d)))
  let waitErr := if code ≠ 0 then waitErr ++ [.errExitCode code]
    else waitErr
  let cl := cleanupCmd true waitErr stdinCloseErr
  { outEvents := [.push .start, .closeWith (.exitCode code)],
    exitCode := code,
    waitErr := cl.waitErr,
    waitCloses := cl.waitCloses }

/-! Section: complete executions.

A complete execution of one controller: the linearized lifecycle calls,
the process outcome observed by the spawned `runCmd` (if one was
spawned), and the stdin pipe's close result. Per the source, every write
to `cmd.waitErr` happens before `close(cmd.wait)` (`cleanupCmd` joins
the pipe-close error and only then runs its deferred `close`), and
`CloseTimeout` reads `cmd.waitErr` only after `<-cmd.Done()`; so the
value every closer returns is the accumulated error of the unique
cleanup path. -/

structure Execution where
  ops : List Op
  proc : RunResult
  stdinCloseErr : Option String
  deriving DecidableEq, Repr

/-- The accumulated error present once `cmd.wait` has closed: produced
by the spawned `runCmd` when `Start` won the CAS, and by the
never-started `cleanupCmd(false)` when a `CloseTimeout` won it. -/
def finalWaitErr (e : Execution) : ErrAcc :=
  if (runMach e.ops).spawns = 1 then
    (runCmd e.proc e.stdinCloseErr).waitErr
  else if (runMach e.ops).neverStartedCleanups = 1 then
    (cleanupCmd false [] e.stdinCloseErr).waitErr
  else []

/-- The value returned by each `Close`/`CloseTimeout` call of the
execution, in call order: each returns `cmd.waitErr` read after
`<-cmd.Done()`. -/
def closeReturns (e : Execution) : List ErrAcc :=
  e.ops.filterMap fun op => match op with
    | .startCall => none
    | .closeCall _ => some (finalWaitErr e)

/-- Total number of `close(cmd.wait)` events of the execution: one per
spawned `runCmd` (via its deferred `cleanupCmd(true)`) and one per
never-started cleanup. -/
def doneCloses (e : Execution) : Nat :=
  (runMach e.ops).spawns * (runCmd e.proc e.stdinCloseErr).waitCloses +
    (runMach e.ops).neverStartedCleanups *
      (cleanupCmd false [] e.stdinCloseErr).waitCloses

/-! Section: the input pump (pipeInput, command.go).

Each loop iteration observes one external event: the cancellation token
found done (either the `ctx.Err()` guard or the `select` arm), the input
channel closed (`ok == false`), or an item received together with the
result `(n, err)` of the `stdin.Write` call on its bytes. The pump is a
function of the sequence of observed events. -/

/-- One event observed by the pump loop. -/
inductive PumpEvent where
  | ctxDone
  | queueClosed
  | item (b : List Nat) (n : Nat) (werr : Option String)
  deriving DecidableEq, Repr

/-- Observable result of the pump on a sequence of events. -/
structure PumpResult where
  writes : List (List Nat)
  echoes : List (List Nat)
  shortWriteLogs : Nat
  errJoins : ErrAcc
  returned : Bool
  deriving DecidableEq, Repr

/-- Function `pipeInput`, translated from the source loop: on
cancellation or queue closure, return; on an item, write its bytes,
push a `StdinEcho` carrying `b[:n]`, return if the write erred, and
otherwise log `incomplete write of stdin` when `n <= len(b)` and loop.
The pump never touches `cmd.waitErr` (`errJoins` stays empty);
`returned = false` means the event sequence left the loop still
blocked. -/
def pipeInput : List PumpEvent → PumpResult
  | [] =>
    { writes := [], echoes := [], shortWriteLogs := 0, errJoins := [],
      returned := false }
  | .ctxDone :: _ =>
    { writes := [], echoes := [], shortWriteLogs := 0, errJoins := [],
      returned := true }
  | .queueClosed :: _ =>
    { writes := [], echoes := [], shortWriteLogs := 0, errJoins := [],
      returned := true }
  | .item b n werr :: rest =>
    let echo := b.take n
    match werr with
    | some _ =>
      { writes := [b], echoes := [echo], shortWriteLogs := 0,
        errJoins := [], returned := true }
    | none =>
      let logged := if n ≤ b.length then 1 else 0
      let r := pipeInput rest
      { writes := b :: r.writes, echoes := echo :: r.echoes,
        shortWriteLogs := logged + r.shortWriteLogs,
        errJoins := r.errJoins, returned := r.returned }

/-- The items the pump processes, with their write results, as the spec
describes them: the longest initial run of received items cut at the
first cancellation, queue closure, or write failure (the failing item
itself is still written and echoed). Spec-side definition, for
comparison with the source-translated `pipeInput`. -/
def pumpProcessedSpec : List PumpEvent → List (List Nat × Nat)
  | [] => []
  | .ctxDone :: _ => []
  | .queueClosed :: _ => []
  | .item b n werr :: rest =>
    (b, n) :: (if werr.isSome then [] else pumpProcessedSpec rest)

/-- Whether an event sequence contains a pump-terminating event. -/
def hasPumpTerminator (evs : List PumpEvent) : Bool :=
  evs.any fun e => match e with
    | .ctxDone => true
    | .queueClosed => true
    | .item _ _ werr => werr.isSome

/-! Section: the output writer shim (kindWriter.Write, command.go). -/

/-- Method `kindWriter.Write`, translated from the source: when the
cancellation token is done (`ctxErr = some e` models
`kw.ctx.Err() != nil`), publish nothing and return `(0, ctx.Err())`;
otherwise push one message carrying a clone of the chunk and return
`(len(b), nil)`. The first component lists the pushed payloads. -/
def kindWriterWrite (ctxErr : Option String) (b : List Nat) :
    List (List Nat) × Nat × Option String :=
  match ctxErr with
  | some e => ([], 0, some e)
  | none => ([b], b.length, none)

/-! Section: the message wire format (messages source file).

JSON values are modelled by a small AST; an RFC3339 timestamp token is
an opaque `time` leaf (Go marshals `time.Time` to such a token and
parses it back to the same instant). `Data` is the payload after Go's
byte-string conversion. Encoding follows the struct field order
(`BaseMessage`'s `time`, `kind`, then the variant's own fields); the
`kind` tag strings come from `kind[K].String()`, the reflected marker
type names `start`, `exit`, `stdio`, `stdout`, `stderr`, `stdin`.
Decoding mirrors `json.Unmarshal` on these structs: the input must be
an object; each expected field, when present, is unmarshalled by the
field type's rule (absent fields keep their zero value; these structs
have pairwise distinct keys, so per-key lookup agrees with Go's
iteration over input keys); `JSONString.UnmarshalJSON` requires a JSON
string equal to the static tag and fails otherwise. -/

/-- A JSON value of the shapes the wire format uses. -/
inductive Json where
  | str (s : String)
  | int (n : Int)
  | time (t : Nat)
  | obj (fields : List (String × Json))

/-- The three stdio discriminants. -/
inductive StdioK where
  | stdout
  | stderr
  | stdin
  deriving DecidableEq, Repr

/-- Tag string of a stdio discriminant (`kind[K].String()`). -/
def StdioK.tag : StdioK → String
  | .stdout => "stdout"
  | .stderr => "stderr"
  | .stdin => "stdin"

/-- A message value by its serializable fields: `StartMessage`,
`ExitMessage`, and the three `stdioMessage` instantiations. -/
inductive WireMsg where
  | start (t : Nat)
  | exit (t : Nat) (code : Int)
  | stdio (t : Nat) (k : StdioK) (data : String)
  deriving DecidableEq, Repr

/-- The five envelope variants a decode targets. -/
inductive MVariant where
  | start
  | exit
  | stdout
  | stderr
  | stdin
  deriving DecidableEq, Repr

/-- The variant of a message value. -/
def WireMsg.variant : WireMsg → MVariant
  | .start _ => .start
  | .exit _ _ => .exit
  | .stdio _ .stdout _ => .stdout
  | .stdio _ .stderr _ => .stderr
  | .stdio _ .stdin _ => .stdin

/-- The static `kind` tag a variant's `JSONString` validates against. -/
def MVariant.kindTag : MVariant → String
  | .start => "start"
  | .exit => "exit"
  | .stdout => "stdio"
  | .stderr => "stdio"
  | .stdin => "stdio"

/-- Marshalling a message to its wire object, field by field. -/
def encodeWire : WireMsg → Json
  | .start t => .obj [("time", .time t), ("kind", .str "start")]
  | .exit t c =>
    .obj [("time", .time t), ("kind", .str "exit"), ("code", .int c)]
  | .stdio t k d =>
    .obj [("time", .time t), ("kind", .str "stdio"),
          ("stdio", .str k.tag), ("data", .str d)]

/-- Unmarshalling a `time.Time` field: the value must be a timestamp
token. -/
def decodeTime : Json → Except String Nat
  | .time t => .ok t
  | _ => .error "cannot unmarshal into time.Time"

/-- Method `JSONString.UnmarshalJSON`: the value must be a JSON string
equal to the static tag. -/
def decodeStaticTag (expected : String) : Json → Except String Unit
  | .str s =>
    if s = expected then .ok ()
    else .error ("expected static string " ++ expected ++ ", got " ++ s)
  | _ => .error "cannot unmarshal into string"

/-- Unmarshalling the `code` field. -/
def decodeCode : Json → Except String Int
  | .int n => .ok n
  | _ => .error "cannot unmarshal into int"

/-- Method `Data.UnmarshalJSON`: the value must be a JSON string. -/
def decodeData : Json → Except String String
  | .str s => .ok s
  | _ => .error "cannot unmarshal into Data"

/-- Unmarshalling an optional field: absent fields keep the zero value
`z`, present fields go through the field rule `f`. -/
def decodeField (fs : List (String × Json)) (key : String) {α : Type}
    (z : α) (f : Json → Except String α) : Except String α :=
  match fs.lookup key with
  | none => .ok z
  | some jv => f jv

/-- Validating an optional static-tag field: the zero `JSONString` is
accepted when the field is absent. -/
def decodeTagField (fs : List (String × Json)) (key : String)
    (expected : String) : Except String Unit :=
  match fs.lookup key with
  | none => .ok ()
  | some jv => decodeStaticTag expected jv

/-- Unmarshalling a wire object into the expected variant `v`:
`json.Unmarshal` into the variant's struct, with the `kind` (and, for
stdio variants, `stdio`) discriminant validated by
`JSONString.UnmarshalJSON`. -/
def decodeWireAs (v : MVariant) (j : Json) : Except String WireMsg :=
  match j with
  | .obj fs =>
    match decodeField fs "time" 0 decodeTime with
    | .error e => .error e
    | .ok t =>
      match decodeTagField fs "kind" v.kindTag with
      | .error e => .error e
      | .ok _ =>
        match v with
        | .start => .ok (.start t)
        | .exit =>
          match decodeField fs "code" 0 decodeCode with
          | .error e => .error e
          | .ok c => .ok (.exit t c)
        | .stdout =>
          match decodeTagField fs "stdio" StdioK.stdout.tag with
          | .error e => .error e
          | .ok _ =>
            match decodeField fs "data" "" decodeData with
            | .error e => .error e
            | .ok d => .ok (.stdio t .stdout d)
        | .stderr =>
          match decodeTagField fs "stdio" StdioK.stderr.tag with
          | .error e => .error e
          | .ok _ =>
            match decodeField fs "data" "" decodeData with
            | .error e => .error e
            | .ok d => .ok (.stdio t .stderr d)
        | .stdin =>
          match decodeTagField fs "stdio" StdioK.stdin.tag with
          | .error e => .error e
          | .ok _ =>
            match decodeField fs "data" "" decodeData with
            | .error e => .error e
            | .ok d => .ok (.stdio t .stdin d)
  | _ => .error "cannot unmarshal into struct"

/-- Whether a decode failed. -/
def isErrorResult : Except String WireMsg → Bool
  | .ok _ => false
  | .error _ => true

/-- Whether an op is a `Start` call. -/
def Op.isStart : Op → Bool
  | .startCall => true
  | .closeCall _ => false

/-! Section: helper lemmas about the controller state machine. -/

/-- Controller-state invariant maintained by every linearized call. -/
def MachInv (s : MachState) : Prop :=
  (s.started = false →
    s.spawns = 0 ∧ s.neverStartedCleanups = 0 ∧ s.killOnceDone = false ∧
      s.killBranchRuns = 0 ∧ s.killSignals = 0) ∧
  (s.started = true → s.spawns + s.neverStartedCleanups = 1) ∧
  (s.killOnceDone = false → s.killBranchRuns = 0 ∧ s.killSignals = 0) ∧
  s.killBranchRuns ≤ 1 ∧ s.killSignals ≤ s.killBranchRuns

theorem machInv_init : MachInv initState := by
  unfold MachInv initState
  decide

theorem machInv_step (s : MachState) (op : Op) (h : MachInv s) :
    MachInv (stepOp s op) := by
  obtain ⟨h1, h2, h3, h4, h5⟩ := h
  cases op with
  | startCall =>
    unfold stepOp stepStart
    cases hs : s.started with
    | true => simpa [hs] using ⟨h1, h2, h3, h4, h5⟩
    | false =>
      obtain ⟨e1, e2, e3, e4, e5⟩ := h1 hs
      simp only [hs, Bool.false_eq_true, if_false, MachInv]
      refine ⟨by simp, ?_, ?_, by simpa using h4, by simpa using h5⟩
      · intro _; simp [e1, e2]
      · intro hk; simpa [hk] using h3 hk
  | closeCall c =>
    unfold stepOp stepClose
    cases hs : s.started with
    | false =>
      obtain ⟨e1, e2, e3, e4, e5⟩ := h1 hs
      simp only [hs, Bool.false_eq_true, if_false, MachInv]
      refine ⟨by simp, ?_, by simp [e4, e5], by simpa using h4,
        by simpa using h5⟩
      intro _; simp [e1, e2]
    | true =>
      cases hk : s.killOnceDone with
      | true =>
        simp only [hs, if_true, hk, MachInv]
        exact ⟨by simp, by simpa using h2 hs, by simp [hk],
          by simpa using h4, by simpa using h5⟩
      | false =>
        obtain ⟨e4, e5⟩ := h3 hk
        simp only [hs, if_true, hk, Bool.false_eq_true, if_false, MachInv]
        split <;>
          (refine ⟨by simp, by simpa using h2 hs, by simp, ?_, ?_⟩ <;>
            simp [e4, e5])

theorem machInv_foldl (ops : List Op) (s : MachState) (h : MachInv s) :
    MachInv (ops.foldl stepOp s) := by
  induction ops generalizing s with
  | nil => exact h
  | cons op rest ih => exact ih _ (machInv_step s op h)

theorem machInv_runMach (ops : List Op) : MachInv (runMach ops) :=
  machInv_foldl ops initState machInv_init

theorem stepOp_started (s : MachState) (op : Op) :
    (stepOp s op).started = true := by
  cases op with
  | startCall =>
    unfold stepOp stepStart
    cases hs : s.started with
    | true => simp [hs]
    | false => simp [hs]
  | closeCall c =>
    unfold stepOp stepClose
    cases hs : s.started with
    | false => simp [hs]
    | true =>
      cases hk : s.killOnceDone with
      | true => simp [hs, hk]
      | false =>
        simp only [hs, if_true, hk, Bool.false_eq_true, if_false]
        split <;> simp [hs]

theorem foldl_started (ops : List Op) (s : MachState)
    (h : s.started = true) : (ops.foldl stepOp s).started = true := by
  induction ops generalizing s with
  | nil => exact h
  | cons op rest ih => exact ih _ (stepOp_started s op)

theorem runMach_started (ops : List Op) (h : ops ≠ []) :
    (runMach ops).started = true := by
  cases ops with
  | nil => exact absurd rfl h
  | cons op rest =>
    unfold runMach
    simp only [List.foldl_cons]
    exact foldl_started rest _ (stepOp_started initState op)

theorem spawns_le_one (ops : List Op) : (runMach ops).spawns ≤ 1 := by
  obtain ⟨h1, h2, _, _, _⟩ := machInv_runMach ops
  cases hs : (runMach ops).started with
  | false => simp [(h1 hs).1]
  | true => have := h2 hs; omega

theorem runCmd_waitCloses (res : RunResult) (se : Option String) :
    (runCmd res se).waitCloses = 1 := by
  cases res <;> rfl

theorem stepStart_nsc (s : MachState) :
    (stepStart s).neverStartedCleanups = s.neverStartedCleanups := by
  unfold stepStart
  split <;> rfl

theorem allStart_nsc (ops : List Op) (s : MachState)
    (h : ops.all Op.isStart = true) :
    (ops.foldl stepOp s).neverStartedCleanups =
      s.neverStartedCleanups := by
  induction ops generalizing s with
  | nil => rfl
  | cons op rest ih =>
    rw [List.all_cons, Bool.and_eq_true] at h
    cases op with
    | closeCall c => simp [Op.isStart] at h
    | startCall =>
      simp only [List.foldl_cons]
      rw [ih _ h.2]
      exact stepStart_nsc s

theorem stepOp_steady (s : MachState) (op : Op)
    (h1 : s.started = true) (h2 : s.killOnceDone = true) :
    (stepOp s op).started = true ∧ (stepOp s op).killOnceDone = true ∧
      (stepOp s op).spawns = s.spawns ∧
      (stepOp s op).neverStartedCleanups = s.neverStartedCleanups ∧
      (stepOp s op).killBranchRuns = s.killBranchRuns ∧
      (stepOp s op).killSignals = s.killSignals := by
  cases op with
  | startCall => simp [stepOp, stepStart, h1, h2]
  | closeCall c => simp [stepOp, stepClose, h1, h2]

theorem foldl_steady (ops : List Op) (s : MachState)
    (h1 : s.started = true) (h2 : s.killOnceDone = true) :
    (ops.foldl stepOp s).spawns = s.spawns ∧
      (ops.foldl stepOp s).neverStartedCleanups =
        s.neverStartedCleanups ∧
      (ops.foldl stepOp s).killBranchRuns = s.killBranchRuns ∧
      (ops.foldl stepOp s).killSignals = s.killSignals := by
  induction ops generalizing s with
  | nil => exact ⟨rfl, rfl, rfl, rfl⟩
  | cons op rest ih =>
    obtain ⟨g1, g2, g3, g4, g5, g6⟩ := stepOp_steady s op h1 h2
    obtain ⟨i1, i2, i3, i4⟩ := ih (stepOp s op) g1 g2
    simp only [List.foldl_cons]
    exact ⟨by rw [i1, g3], by rw [i2, g4], by rw [i3, g5], by rw [i4, g6]⟩

theorem allClose_state (ops : List Op) (h : ops.all Op.isClose = true)
    (hne : ops ≠ []) :
    (runMach ops).spawns = 0 ∧ (runMach ops).killBranchRuns = 0 ∧
      (runMach ops).killSignals = 0 ∧
      (runMach ops).neverStartedCleanups = 1 := by
  cases ops with
  | nil => exact absurd rfl hne
  | cons op rest =>
    rw [List.all_cons, Bool.and_eq_true] at h
    cases op with
    | startCall => simp [Op.isClose] at h
    | closeCall c =>
      have hstep : stepOp initState (.closeCall c) =
          { started := true, killOnceDone := true, cancelled := true,
            spawns := 0, neverStartedCleanups := 1, killBranchRuns := 0,
            killSignals := 0 } := by
        simp [stepOp, stepClose, initState]
      unfold runMach
      simp only [List.foldl_cons, hstep]
      obtain ⟨i1, i2, i3, i4⟩ := foldl_steady rest
        { started := true, killOnceDone := true, cancelled := true,
          spawns := 0, neverStartedCleanups := 1, killBranchRuns := 0,
          killSignals := 0 } rfl rfl
      exact ⟨i1, i3, i4, i2⟩

/-! Section: claim theorems. -/

/-- C1. The claim states that collecting a spec's effective
`(command, args, env)` triple uses each capability independently, so
that a spec offering only the env capability collects empty args and
its environment entries as env. On the source `commandCollect` this
fails: for the env-only spec with environment `["E=1"]` the collected
args are `["E=1"]` (the environment is assigned into the args slot) and
the collected env is `[]` (the `env` return value is never assigned),
diverging from the independent-capability collection
`commandCollectSpec`. -/
theorem commandCollect_env_only_bug :
    commandCollect ⟨"c", none, some ["E=1"]⟩ = ("c", ["E=1"], []) ∧
    commandCollectSpec ⟨"c", none, some ["E=1"]⟩ = ("c", [], ["E=1"]) ∧
    commandCollect ⟨"c", none, some ["E=1"]⟩ ≠
      commandCollectSpec ⟨"c", none, some ["E=1"]⟩ := by
  refine ⟨rfl, rfl, ?_⟩
  decide

/-- C2. The claim states that `WithEnv(s, e)` keeps `Command()`,
keeps `Args()`, and appends `e` to the existing environment. On the
source this fails because `WithEnv` collects via `commandCollect`: for
`NewCommandArgsEnv "c" ["a"] ["E=1"]` and additions `["F=2"]`, the
result's args are `["E=1"]` (the old environment, not `["a"]`) and its
environment is `["F=2"]` (the old environment is dropped instead of
appended to). The executable is kept, and the input value is not
mutated (specs are immutable values). -/
theorem withEnv_drops_env_bug :
    (WithEnv (NewCommandArgsEnv "c" ["a"] ["E=1"]) ["F=2"]).command =
      "c" ∧
    (WithEnv (NewCommandArgsEnv "c" ["a"] ["E=1"]) ["F=2"]).argsOf =
      ["E=1"] ∧
    (WithEnv (NewCommandArgsEnv "c" ["a"] ["E=1"]) ["F=2"]).envOf =
      ["F=2"] ∧
    ¬((WithEnv (NewCommandArgsEnv "c" ["a"] ["E=1"]) ["F=2"]).argsOf =
        (NewCommandArgsEnv "c" ["a"] ["E=1"]).argsOf ∧
      (WithEnv (NewCommandArgsEnv "c" ["a"] ["E=1"]) ["F=2"]).envOf =
        (NewCommandArgsEnv "c" ["a"] ["E=1"]).envOf ++ ["F=2"]) := by
  refine ⟨rfl, rfl, rfl, ?_⟩
  decide

/-- C3. Over any linearized sequence of `Start()`/`CloseTimeout` calls:
the CAS spawns at most one process; once any call has run, exactly one
cleanup path closes `cmd.wait` (the `Done` channel closes exactly once,
no matter how many shutdown calls occur); and a nonempty sequence of
`Start()` calls alone spawns exactly one process, every call after the
first being a no-op. -/
theorem start_once_done_once (e : Execution) :
    (runMach e.ops).spawns ≤ 1 ∧
    (e.ops ≠ [] → doneCloses e = 1) ∧
    (e.ops ≠ [] → e.ops.all Op.isStart = true →
      (runMach e.ops).spawns = 1) := by
  refine ⟨spawns_le_one e.ops, ?_, ?_⟩
  · intro hne
    obtain ⟨_, h2, _, _, _⟩ := machInv_runMach e.ops
    have hsum := h2 (runMach_started e.ops hne)
    unfold doneCloses
    rw [runCmd_waitCloses]
    simp only [cleanupCmd]
    omega
  · intro hne hall
    obtain ⟨_, h2, _, _, _⟩ := machInv_runMach e.ops
    have hsum := h2 (runMach_started e.ops hne)
    have hnsc : (runMach e.ops).neverStartedCleanups = 0 := by
      unfold runMach
      rw [allStart_nsc e.ops initState hall]
      rfl
    omega

/-- Witness for `start_once_done_once` at two consecutive `Start`
calls: one spawn, one `Done` closure. -/
theorem start_once_done_once_witness :
    doneCloses ⟨[.startCall, .startCall], .success, none⟩ = 1 ∧
    (runMach [Op.startCall, Op.startCall]).spawns = 1 :=
  ⟨(start_once_done_once
      ⟨[.startCall, .startCall], .success, none⟩).2.1 (by decide),
   (start_once_done_once
      ⟨[.startCall, .startCall], .success, none⟩).2.2 (by decide)
      (by decide)⟩

/-- C4. The spawned `runCmd` maps a non-zero exit status `c` to
`ErrExitCode(c)` in the accumulated error; maps a run failure that is
not an `*exec.ExitError` to the sentinel code `-1`, recording both the
underlying failure and `ErrExitCode(-1)` in the accumulated error; and
in every case the last output-stream event is the stream-closing
`Close` carrying the `Exit` message with the final code. -/
theorem runCmd_exit_mapping (res : RunResult) (se : Option String) :
    (∀ c : Int, res = .exitErr c → c ≠ 0 →
      (runCmd res se).exitCode = c ∧
        GoErr.errExitCode c ∈ (runCmd res se).waitErr) ∧
    (∀ d : String, res = .otherErr d →
      (runCmd res se).exitCode = -1 ∧
        GoErr.ioErr d ∈ (runCmd res se).waitErr ∧
        GoErr.errExitCode (-1) ∈ (runCmd res se).waitErr) ∧
    (runCmd res se).outEvents.getLast? =
      some (.closeWith (.exitCode (runCmd res se).exitCode)) := by
  refine ⟨?_, ?_, ?_⟩
  · intro c hres hc
    subst hres
    refine ⟨rfl, ?_⟩
    simp [runCmd, cleanupCmd, joinOpt, hc]
  · intro d hres
    subst hres
    refine ⟨rfl, ?_, ?_⟩ <;> simp [runCmd, cleanupCmd, joinOpt]
  · cases res <;> rfl

/-- Witness for `runCmd_exit_mapping` at exit status 3 and at a
non-exit run failure. -/
theorem runCmd_exit_mapping_witness :
    ((runCmd (.exitErr 3) none).exitCode = 3 ∧
      GoErr.errExitCode 3 ∈ (runCmd (.exitErr 3) none).waitErr) ∧
    ((runCmd (.otherErr "spawn failed") (some "pipe")).exitCode = -1 ∧
      GoErr.ioErr "spawn failed" ∈
        (runCmd (.otherErr "spawn failed") (some "pipe")).waitErr ∧
      GoErr.errExitCode (-1) ∈
        (runCmd (.otherErr "spawn failed") (some "pipe")).waitErr) :=
  ⟨(runCmd_exit_mapping (.exitErr 3) none).1 3 rfl (by decide),
   (runCmd_exit_mapping (.otherErr "spawn failed") (some "pipe")).2.1
     "spawn failed" rfl⟩

/-- C5. Over any linearized execution: every `Close`/`CloseTimeout`
call returns the accumulated error read after `cmd.wait` has closed —
one identical value for all callers (every write to `cmd.waitErr`
happens before the deferred `close(cmd.wait)`, and each call reads only
after `<-cmd.Done()`); the process is spawned at most once and the
forced-kill signal is sent at most once. -/
theorem close_returns_identical (e : Execution) :
    (∀ r ∈ closeReturns e, r = finalWaitErr e) ∧
    (runMach e.ops).spawns ≤ 1 ∧
    (runMach e.ops).killSignals ≤ 1 := by
  refine ⟨?_, spawns_le_one e.ops, ?_⟩
  · intro r hr
    simp only [closeReturns, List.mem_filterMap] at hr
    obtain ⟨op, _, hop⟩ := hr
    cases op with
    | startCall => simp at hop
    | closeCall c =>
      simp only [Option.some.injEq] at hop
      exact hop.symm
  · obtain ⟨_, _, _, h4, h5⟩ := machInv_runMach e.ops
    omega

/-- Witness for `close_returns_identical`: two `CloseTimeout` callers
on a never-started controller both receive the pipe-close error. -/
theorem close_returns_identical_witness :
    ([GoErr.ioErr "pipe"] : ErrAcc) =
      finalWaitErr ⟨[.closeCall ⟨0, false⟩, .closeCall ⟨5, true⟩],
        .success, some "pipe"⟩ ∧
    (runMach [Op.closeCall ⟨0, false⟩,
        Op.closeCall ⟨5, true⟩]).killSignals ≤ 1 :=
  ⟨(close_returns_identical
      ⟨[.closeCall ⟨0, false⟩, .closeCall ⟨5, true⟩], .success,
        some "pipe"⟩).1 [GoErr.ioErr "pipe"] (by decide),
   (close_returns_identical
      ⟨[.closeCall ⟨0, false⟩, .closeCall ⟨5, true⟩], .success,
        some "pipe"⟩).2.2⟩

/-- C6. Over any linearized execution consisting only of
`Close`/`CloseTimeout` calls (so `Start()` was never called): no
process is spawned, the `killOnce` kill/timeout branch never runs and
no kill signal is sent, the never-started cleanup releases resources
(closing the output stream with no final message) exactly once,
`cmd.wait` closes exactly once, and the accumulated error contains no
`ErrExitCode`. -/
theorem never_started_close (e : Execution) (h1 : e.ops ≠ [])
    (h2 : e.ops.all Op.isClose = true) :
    (runMach e.ops).spawns = 0 ∧
    (runMach e.ops).killBranchRuns = 0 ∧
    (runMach e.ops).killSignals = 0 ∧
    (runMach e.ops).neverStartedCleanups = 1 ∧
    doneCloses e = 1 ∧
    (cleanupCmd false [] e.stdinCloseErr).outClosedEmpty = true ∧
    containsExitCode (finalWaitErr e) = false := by
  obtain ⟨hs0, hk0, hks0, hn1⟩ := allClose_state e.ops h2 h1
  refine ⟨hs0, hk0, hks0, hn1, ?_, rfl, ?_⟩
  · unfold doneCloses
    rw [runCmd_waitCloses, hs0, hn1]
    simp [cleanupCmd]
  · unfold finalWaitErr
    rw [hs0, hn1]
    simp only [if_true, if_false]
    norm_num
    cases e.stdinCloseErr <;>
      simp [cleanupCmd, joinOpt, containsExitCode]

/-- Witness for `never_started_close`: two closes without a start. -/
theorem never_started_close_witness :
    (runMach [Op.closeCall ⟨3, true⟩, Op.closeCall ⟨3, true⟩]).spawns =
      0 ∧
    doneCloses ⟨[.closeCall ⟨3, true⟩, .closeCall ⟨3, true⟩], .success,
      some "pipe"⟩ = 1 ∧
    containsExitCode (finalWaitErr ⟨[.closeCall ⟨3, true⟩,
      .closeCall ⟨3, true⟩], .success, some "pipe"⟩) = false := by
  have h := never_started_close
    ⟨[.closeCall ⟨3, true⟩, .closeCall ⟨3, true⟩], .success,
      some "pipe"⟩ (by decide) (by decide)
  exact ⟨h.1, h.2.2.2.2.1, h.2.2.2.2.2.2⟩

/-- C7. The claim states the short-write condition is recorded iff the
error-free write wrote strictly fewer bytes than requested. On the
source this fails: the guard is `n <= len(b)`, so a complete write
(here 2 bytes requested, 2 written, no error) still logs
`incomplete write of stdin`. The recording is indeed only a log: the
accumulated error receives nothing and the pump continues to the next
event. -/
theorem short_write_log_bug :
    (pipeInput [.item [104, 105] 2 none, .queueClosed]).shortWriteLogs =
      1 ∧
    (pipeInput [.item [104, 105] 2 none, .queueClosed]).errJoins = [] ∧
    (pipeInput [.item [104, 105] 2 none, .queueClosed]).writes =
      [[104, 105]] ∧
    (pipeInput [.item [104, 105] 2 none, .queueClosed]).returned =
      true := by
  refine ⟨rfl, rfl, rfl, rfl⟩

/-- C9. The pump writes the received items' bytes to stdin in exactly
arrival (FIFO) order; for each processed item it publishes exactly one
`StdinEcho` carrying `b[:n]`, the prefix actually written; it
terminates whenever the event sequence contains a write failure, a
queue closure, or a cancellation; and it never contributes to the
accumulated error. -/
theorem pipeInput_fifo_echo (evs : List PumpEvent) :
    (pipeInput evs).writes = (pumpProcessedSpec evs).map Prod.fst ∧
    (pipeInput evs).echoes =
      (pumpProcessedSpec evs).map (fun p => p.1.take p.2) ∧
    (hasPumpTerminator evs = true → (pipeInput evs).returned = true) ∧
    (pipeInput evs).errJoins = [] := by
  induction evs with
  | nil =>
    exact ⟨rfl, rfl, fun h => by simp [hasPumpTerminator] at h, rfl⟩
  | cons ev rest ih =>
    cases ev with
    | ctxDone => exact ⟨rfl, rfl, fun _ => rfl, rfl⟩
    | queueClosed => exact ⟨rfl, rfl, fun _ => rfl, rfl⟩
    | item b n werr =>
      obtain ⟨ih1, ih2, ih3, ih4⟩ := ih
      cases werr with
      | some err =>
        exact ⟨rfl, rfl, fun _ => rfl, rfl⟩
      | none =>
        refine ⟨?_, ?_, ?_, ?_⟩
        · simp [pipeInput, pumpProcessedSpec, ih1]
        · simp [pipeInput, pumpProcessedSpec, ih2]
        · intro h
          simp only [hasPumpTerminator, List.any_cons,
            Option.isSome_none, Bool.false_or] at h
          simpa [pipeInput] using ih3 h
        · simpa [pipeInput] using ih4

/-- Witness for `pipeInput_fifo_echo`: two items, the second a short
write that then fails, followed by nothing (the failure terminates). -/
theorem pipeInput_fifo_echo_witness :
    (pipeInput [.item [97, 10] 2 none, .item [98, 10] 1
        (some "closed")]).echoes = [[97, 10], [98]] ∧
    (pipeInput [.item [97, 10] 2 none, .item [98, 10] 1
        (some "closed")]).returned = true := by
  have h := pipeInput_fifo_echo
    [.item [97, 10] 2 none, .item [98, 10] 1 (some "closed")]
  exact ⟨by rw [h.2.1]; rfl, h.2.2.1 (by decide)⟩

/-- C10. The stdout/stderr writer shim: while the cancellation token
is not done, a `Write` of chunk `b` publishes exactly one message
carrying the chunk's bytes and returns `(len(b), nil)`; once the token
is done, `Write` publishes nothing and returns `(0, ctx.Err())` — so
output arriving after shutdown initiation is dropped from the
stream. -/
theorem kindWriter_write_cases (b : List Nat) (e : String) :
    kindWriterWrite none b = ([b], b.length, none) ∧
    kindWriterWrite (some e) b = ([], 0, some e) :=
  ⟨rfl, rfl⟩

/-- C8. Encoding any message variant to the wire object and decoding
it back into the same variant reproduces the identical value
(timestamp, code, stdio discriminant, data); decoding the encoded
object into any different variant fails, the discriminant-tag
validation rejecting it. -/
theorem wire_roundtrip (m : WireMsg) :
    decodeWireAs m.variant (encodeWire m) = .ok m ∧
    ∀ v : MVariant, v ≠ m.variant →
      isErrorResult (decodeWireAs v (encodeWire m)) = true := by
  constructor
  · cases m with
    | start t => rfl
    | exit t c => rfl
    | stdio t k d => cases k <;> rfl
  · intro v hv
    cases m with
    | start t =>
      cases v with
      | start => exact absurd rfl hv
      | exit => rfl
      | stdout => rfl
      | stderr => rfl
      | stdin => rfl
    | exit t c =>
      cases v with
      | start => rfl
      | exit => exact absurd rfl hv
      | stdout => rfl
      | stderr => rfl
      | stdin => rfl
    | stdio t k d =>
      cases k with
      | stdout =>
        cases v with
        | start => rfl
        | exit => rfl
        | stdout => exact absurd rfl hv
        | stderr => rfl
        | stdin => rfl
      | stderr =>
        cases v with
        | start => rfl
        | exit => rfl
        | stdout => rfl
        | stderr => exact absurd rfl hv
        | stdin => rfl
      | stdin =>
        cases v with
        | start => rfl
        | exit => rfl
        | stdout => rfl
        | stderr => rfl
        | stdin => exact absurd rfl hv

/-- Witness for `wire_roundtrip`: a `Stdout` message round-trips into
its own variant and is rejected when decoded as `Stderr`. -/
theorem wire_roundtrip_witness :
    decodeWireAs MVariant.stdout
      (encodeWire (.stdio 7 .stdout "hello")) =
      .ok (.stdio 7 .stdout "hello") ∧
    isErrorResult (decodeWireAs MVariant.stderr
      (encodeWire (.stdio 7 .stdout "hello"))) = true :=
  ⟨(wire_roundtrip (.stdio 7 .stdout "hello")).1,
   (wire_roundtrip (.stdio 7 .stdout "hello")).2 MVariant.stderr
     (by decide)⟩

end Subflow
